import Mathlib

/-!
Verification of the tower-defense simulation engine of this repository
(`src/client/game.ts`, `src/client/devvit.ts`,
`src/client/utils/troopController.ts`, `src/client/utils/enemyController.ts`,
`src/client/utils/waveManager.ts`, `src/shared/types/game.ts`).

The TypeScript sources are embedded shallowly: JS `number` fields are
modelled by `ℚ` (all arithmetic the claims depend on is exact rational
arithmetic), optional fields by `Option`, mutable class fields by explicit
state records, and the per-tick mutation loops by folds threading that
state.  The one operation that is genuinely irrational — the fractional
advance of an enemy towards its next waypoint, which divides by
`Math.sqrt(dx*dx+dy*dy)` — is kept as an explicit function parameter
`frac`; every theorem about the tick quantifies over it, so nothing is
assumed about its behaviour.  The branch condition
`Math.sqrt(dx*dx+dy*dy) < moveSpeed` is desugared to the exact rational
condition `0 < moveSpeed ∧ dx*dx+dy*dy < moveSpeed*moveSpeed`, which is
equivalent for real `sqrt`.
-/

namespace TD

/-- Grid / world coordinates (`{ x: number; y: number }` in the source). -/
structure Pos where
  x : ℚ
  y : ℚ
deriving DecidableEq, Repr

/-- EnemyType from `src/shared/types/game.ts`: `'goblin' | 'orc' | 'ogre'`. -/
inductive EnemyType where
  | goblin
  | orc
  | ogre
deriving DecidableEq, Repr

/-- Enemy type tags are stored as strings on the `Enemy` record. -/
def EnemyType.str : EnemyType → String
  | .goblin => "goblin"
  | .orc => "orc"
  | .ogre => "ogre"

/-- TroopType from `src/shared/types/game.ts`. -/
inductive TroopType where
  | infantry
  | archer
  | mage
  | cannon
deriving DecidableEq, Repr

/-- Per-type troop statistics. -/
structure TroopStats where
  cost : ℚ
  range : ℚ
  damage : ℚ
  fireRate : ℚ
deriving DecidableEq, Repr

/-- TROOP_CONFIG from `src/client/devvit.ts` (identical in `game.ts`). -/
def TROOP_CONFIG : TroopType → TroopStats
  | .infantry => ⟨10, 2, 1, 1⟩
  | .archer => ⟨15, 4, 1, 12/10⟩
  | .mage => ⟨25, 3, 2, 8/10⟩
  | .cannon => ⟨50, 5, 5, 5/10⟩

/-- Per-type enemy statistics. -/
structure EnemyStats where
  health : ℚ
  speed : ℚ
  reward : ℚ
deriving DecidableEq, Repr

/-- ENEMY_CONFIG from `src/client/devvit.ts` (identical in `game.ts`);
the `reward` field is the money awarded on a kill. -/
def ENEMY_CONFIG : EnemyType → EnemyStats
  | .goblin => ⟨5, 2, 1⟩
  | .orc => ⟨10, 3/2, 3⟩
  | .ogre => ⟨25, 1, 5⟩

/-- Reward lookup `ENEMY_CONFIG[enemy.type as EnemyType]?.reward || 0` from
`updateTroops`: the enemy record stores its type as a string, unknown
strings yield 0. -/
def rewardOf (ty : String) : ℚ :=
  if ty = "goblin" then 1
  else if ty = "orc" then 3
  else if ty = "ogre" then 5
  else 0

/-- Enemy record from `src/shared/types/game.ts`. `pathIndex` is a JS number
used as an index, modelled as `ℤ`. -/
structure Enemy where
  id : String
  type : String
  health : ℚ
  speed : ℚ
  position : Pos
  pathIndex : ℤ
deriving DecidableEq, Repr

/-- TroopUpgrade from `src/shared/types/game.ts`: `level` and `cost` are
required fields, the rest are optional. -/
structure TroopUpgrade where
  level : ℚ
  cost : ℚ
  range : Option ℚ := none
  damage : Option ℚ := none
  fireRate : Option ℚ := none
  description : Option String := none
deriving DecidableEq, Repr

/-- Troop record from `src/shared/types/game.ts`.  `currentTargetId` merges
the `undefined` and `null` cases into `none` (the source only ever writes
a string or `null` into it and only reads it for truthiness). -/
structure Troop where
  id : String
  type : TroopType
  position : Pos
  level : ℚ
  range : ℚ
  damage : ℚ
  fireRate : ℚ
  cost : ℚ
  currentTargetId : Option String := none
  upgrades : Option (List TroopUpgrade) := none
deriving DecidableEq, Repr

/-- Terrain tags from `src/shared/types/game.ts`. -/
inductive TerrainType where
  | grass
  | dirt
  | water
  | road
  | mountain
deriving DecidableEq, Repr

/-- Obstacle tags from `src/shared/types/game.ts`; `onone` embeds the
source's `'none'` literal. -/
inductive ObstacleType where
  | rock
  | tree
  | wall
  | onone
deriving DecidableEq, Repr

/-- Highlight tags; `hlNone` embeds the source's `'none'` literal. -/
inductive Highlight where
  | hlNone
  | valid
  | invalid
deriving DecidableEq, Repr

/-- Tile record from `src/shared/types/game.ts` (devvit variant, with the
optional terrain and obstacle tags). -/
structure Tile where
  x : ℤ
  y : ℤ
  occupied : Bool
  troopId : Option String := none
  highlight : Option Highlight := none
  terrainType : Option TerrainType := none
  obstacle : Option ObstacleType := none
deriving DecidableEq, Repr

/-- Path record from `src/shared/types/game.ts` (devvit variant). -/
structure Path where
  id : String
  waypoints : List Pos
  ground : Bool
deriving DecidableEq, Repr

/-- The fixed tile-size scalar (`const tileSize = 5` throughout the source). -/
def tileSize : ℚ := 5

/-- JS array indexing `l[i]` with a possibly signed index: `some` exactly
when `0 ≤ i < l.length`. -/
def listGetI {α : Type} (l : List α) (i : ℤ) : Option α :=
  if h : 0 ≤ i ∧ i.toNat < l.length then some (l.get ⟨i.toNat, h.2⟩) else none

/-- In-place update of the element at index `n` (mutation of `l[n]`). -/
def listModify {α : Type} : List α → ℕ → (α → α) → List α
  | [], _, _ => []
  | a :: l, 0, f => f a :: l
  | a :: l, n + 1, f => a :: listModify l n f

/-- Lookup in a string-keyed map (`Map.get`). -/
def mapGet (m : List (String × ℚ)) (k : String) : Option ℚ :=
  (m.find? fun p => p.1 = k).map Prod.snd

/-- Update of a string-keyed map (`Map.set`): overwrites the first binding
of the key, appends a fresh binding otherwise. -/
def mapSet : List (String × ℚ) → String → ℚ → List (String × ℚ)
  | [], k, v => [(k, v)]
  | (k0, v0) :: rest, k, v =>
    if k0 = k then (k0, v) :: rest else (k0, v0) :: mapSet rest k v

theorem mapGet_mapSet_self (m : List (String × ℚ)) (k : String) (v : ℚ) :
    mapGet (mapSet m k v) k = some v := by
  induction m with
  | nil => simp [mapGet, mapSet]
  | cons p rest ih =>
    by_cases h : p.1 = k
    · cases p
      simp_all [mapGet, mapSet, List.find?]
    · cases p
      simp_all [mapGet, mapSet, List.find?]

/-! ## Wave sequencer (`src/client/utils/waveManager.ts`) -/

/-- One spawn group of a wave definition. -/
structure WaveGroupDef where
  type : String
  count : ℕ
  pathId : Option String := none
deriving DecidableEq, Repr

/-- WaveDefinition from `waveManager.ts`. -/
structure WaveDefinition where
  enemies : List WaveGroupDef
  isBoss : Bool := false
  announcement : Option String := none
deriving DecidableEq, Repr

/-- One normal wave pushed by `WaveManager.generateWaves` for
`i = 1, …, 8`: `4 + i*2` goblins, plus `Math.floor(i/2)` orcs once `i > 3`. -/
def mkNormalWave (i : ℕ) : WaveDefinition :=
  { enemies :=
      [⟨"goblin", 4 + i * 2, none⟩] ++
        (if i > 3 then [⟨"orc", i / 2, none⟩] else []),
    announcement := some ("Wave " ++ toString i) }

/-- The terminal boss wave pushed by `WaveManager.generateWaves`. -/
def bossWave : WaveDefinition :=
  { enemies := [⟨"ogre", 1, none⟩, ⟨"orc", 4, none⟩, ⟨"goblin", 8, none⟩],
    isBoss := true,
    announcement := some "Boss Wave!" }

/-- WaveManager.generateWaves: 8 normal waves followed by the boss wave. -/
def generateWaves : List WaveDefinition :=
  ((List.range 8).map fun k => mkNormalWave (k + 1)) ++ [bossWave]

/-- Mutable state of a `WaveManager`. -/
structure WaveManagerSt where
  waves : List WaveDefinition
  currentWaveIndex : ℤ
deriving DecidableEq, Repr

/-- A freshly constructed `WaveManager` (the constructor runs
`generateWaves`, `currentWaveIndex` starts at `-1`). -/
def wmInit : WaveManagerSt :=
  { waves := generateWaves, currentWaveIndex := -1 }

/-- WaveManager.getNextWave: increments `currentWaveIndex`, then returns
`waves[currentWaveIndex]` when still in range and `null` otherwise. -/
def getNextWave (s : WaveManagerSt) : Option WaveDefinition × WaveManagerSt :=
  let s2 : WaveManagerSt := { s with currentWaveIndex := s.currentWaveIndex + 1 }
  (if s2.currentWaveIndex < (s2.waves.length : ℤ)
   then listGetI s2.waves s2.currentWaveIndex
   else none,
   s2)

/-- WaveManager.getCurrentWaveNumber: the 1-based `currentWaveIndex + 1`. -/
def getCurrentWaveNumber (s : WaveManagerSt) : ℤ :=
  s.currentWaveIndex + 1

/-- State of a fresh `WaveManager` after `n` calls of `getNextWave`. -/
def wmAfter : ℕ → WaveManagerSt
  | 0 => wmInit
  | n + 1 => (getNextWave (wmAfter n)).2

/-- Return value of the `n`-th call of `getNextWave` (`n ≥ 1`). -/
def nthWave (n : ℕ) : Option WaveDefinition :=
  (getNextWave (wmAfter (n - 1))).1

theorem wmAfter_index (n : ℕ) : (wmAfter n).currentWaveIndex = (n : ℤ) - 1 := by
  induction n with
  | zero => rfl
  | succ n ih =>
    simp only [wmAfter, getNextWave, ih]
    push_cast
    ring

theorem wmAfter_waves (n : ℕ) : (wmAfter n).waves = generateWaves := by
  induction n with
  | zero => rfl
  | succ n ih => simp only [wmAfter, getNextWave, ih]

theorem generateWaves_length : generateWaves.length = 9 := by
  simp [generateWaves]

/-- C6: a wave sequencer holding the 9 generated wave definitions returns
them in list order on the first 9 calls of `getNextWave` while
`getCurrentWaveNumber` advances from 1 to 9; the 10th call returns the
`null` sentinel, and every call after exhaustion keeps returning it. -/
theorem getNextWave_nine_then_sentinel :
    generateWaves.length = 9 ∧
    (∀ k : ℕ, k < 9 →
      nthWave (k + 1) = listGetI generateWaves (k : ℤ) ∧
      getCurrentWaveNumber (wmAfter (k + 1)) = (k : ℤ) + 1) ∧
    nthWave 10 = none ∧
    (∀ n : ℕ, 10 ≤ n → nthWave n = none) := by
  have hlen := generateWaves_length
  have hsent : ∀ n : ℕ, 10 ≤ n → nthWave n = none := by
    intro n hn
    show (getNextWave (wmAfter (n - 1))).1 = none
    simp only [getNextWave, wmAfter_index, wmAfter_waves, hlen]
    split
    · rename_i hcond
      exact absurd hcond (by omega)
    · rfl
  refine ⟨hlen, ?_, hsent 10 (by norm_num), hsent⟩
  intro k hk
  have hk9 : ((k : ℤ)) < 9 := by exact_mod_cast hk
  constructor
  · show (getNextWave (wmAfter k)).1 = _
    simp only [getNextWave, wmAfter_index, wmAfter_waves, hlen]
    have h1 : (k : ℤ) - 1 + 1 = (k : ℤ) := by ring
    rw [h1]
    simp [hk9]
  · simp only [getCurrentWaveNumber, wmAfter_index]
    push_cast
    ring

theorem getNextWave_nine_then_sentinel_witness :
    nthWave 3 = listGetI generateWaves 2 ∧
    getCurrentWaveNumber (wmAfter 3) = 3 ∧
    nthWave 12 = none := by
  have h1 := (getNextWave_nine_then_sentinel.2.1 2 (by norm_num)).1
  have h2 := (getNextWave_nine_then_sentinel.2.1 2 (by norm_num)).2
  have h3 := getNextWave_nine_then_sentinel.2.2.2 12 (by norm_num)
  norm_num at h1 h2 ⊢
  exact ⟨h1, h2, h3⟩

/-- C10: every call of `getNextWave` increments the internal wave index
unconditionally, so after `n` calls `getCurrentWaveNumber` returns `n`
even past the 9 available waves — 10 after the 10th call, 11 after the
11th — rather than clamping at the terminal wave number. -/
theorem getCurrentWaveNumber_unclamped :
    (∀ s : WaveManagerSt,
      (getNextWave s).2.currentWaveIndex = s.currentWaveIndex + 1) ∧
    (∀ n : ℕ, getCurrentWaveNumber (wmAfter n) = (n : ℤ)) ∧
    getCurrentWaveNumber (wmAfter 10) = 10 ∧
    getCurrentWaveNumber (wmAfter 11) = 11 := by
  have hstep : ∀ s : WaveManagerSt,
      (getNextWave s).2.currentWaveIndex = s.currentWaveIndex + 1 := by
    intro s
    rfl
  have hnum : ∀ n : ℕ, getCurrentWaveNumber (wmAfter n) = (n : ℤ) := by
    intro n
    simp [getCurrentWaveNumber, wmAfter_index]
  exact ⟨hstep, hnum, hnum 10, hnum 11⟩

/-! ## Troop controller (`src/client/utils/troopController.ts`) -/

namespace TroopController

/-- Squared world distance between the troop's tile centre and the enemy's
tile-projected position, as computed inside `TroopController.attack`
(`dx*dx + dy*dy` after converting both positions with
`p * tileSize + tileSize / 2`). -/
def distanceSq (t : Troop) (e : Enemy) : ℚ :=
  let troopWorldX := t.position.x * tileSize + tileSize / 2
  let troopWorldY := t.position.y * tileSize + tileSize / 2
  let enemyWorldX := e.position.x * tileSize + tileSize / 2
  let enemyWorldY := e.position.y * tileSize + tileSize / 2
  let dx := troopWorldX - enemyWorldX
  let dy := troopWorldY - enemyWorldY
  dx * dx + dy * dy

/-- The first conjunct of the selection condition in `attack`:
`distanceSq < troopRangeWorld * troopRangeWorld` with
`troopRangeWorld = troop.range * tileSize`. -/
def inRange (t : Troop) (e : Enemy) : Prop :=
  distanceSq t e < (t.range * tileSize) * (t.range * tileSize)

instance (t : Troop) (e : Enemy) : Decidable (inRange t e) :=
  inferInstanceAs
    (Decidable (distanceSq t e < (t.range * tileSize) * (t.range * tileSize)))

/-- One iteration of the scan loop of `attack`: the pair accumulator models
the `targetEnemy` / `closestDistanceSq` variables (`none` stands for
`targetEnemy === null`, `closestDistanceSq === Infinity`, against which the
second comparison always succeeds). -/
def attackStep (t : Troop) (acc : Option (Enemy × ℚ)) (e : Enemy) :
    Option (Enemy × ℚ) :=
  match acc with
  | none => if inRange t e then some (e, distanceSq t e) else none
  | some (b, c) =>
    if inRange t e ∧ distanceSq t e < c then some (e, distanceSq t e)
    else some (b, c)

/-- The scan loop of `attack` over the caller-supplied enemy list.  The
source's `!enemy || typeof enemy.position === 'undefined'` skip is vacuous
in the typed embedding (every `Enemy` value has a position). -/
def attackAux (t : Troop) : List Enemy → Option (Enemy × ℚ) → Option (Enemy × ℚ)
  | [], acc => acc
  | e :: rest, acc => attackAux t rest (attackStep t acc e)

/-- TroopController.attack: returns the resolved target (or `null`) and the
troop updated by the side effect
`troop.currentTargetId = targetEnemy ? targetEnemy.id : null`. -/
def attack (t : Troop) (enemies : List Enemy) : Option Enemy × Troop :=
  let targetEnemy := (attackAux t enemies none).map Prod.fst
  (targetEnemy, { t with currentTargetId := targetEnemy.map Enemy.id })

theorem attackAux_none_iff (t : Troop) :
    ∀ (es : List Enemy) (acc : Option (Enemy × ℚ)),
      attackAux t es acc = none ↔ (acc = none ∧ ∀ e ∈ es, ¬ inRange t e) := by
  intro es
  induction es with
  | nil =>
    intro acc
    simp [attackAux]
  | cons x rest ih =>
    intro acc
    show attackAux t rest (attackStep t acc x) = none ↔ _
    rw [ih]
    cases acc with
    | none =>
      by_cases hx : inRange t x
      · simp [attackStep, hx]
      · simp [attackStep, hx]
    | some p =>
      cases p with
      | mk b c =>
        by_cases hcond : inRange t x ∧ distanceSq t x < c
        · simp [attackStep, hcond]
        · simp only [attackStep, if_neg hcond]
          simp

theorem attackAux_some_spec (t : Troop) :
    ∀ (es : List Enemy) (acc : Option (Enemy × ℚ)) (e : Enemy) (d : ℚ),
      attackAux t es acc = some (e, d) →
      (acc = some (e, d) ∧ ∀ x ∈ es, inRange t x → d ≤ distanceSq t x) ∨
      (∃ pre post, es = pre ++ e :: post ∧ inRange t e ∧ d = distanceSq t e ∧
        (∀ c : Enemy × ℚ, acc = some c → d < c.2) ∧
        (∀ x ∈ pre, inRange t x → d < distanceSq t x) ∧
        (∀ x ∈ post, inRange t x → d ≤ distanceSq t x)) := by
  intro es
  induction es with
  | nil =>
    intro acc e d h
    left
    simp only [attackAux] at h
    exact ⟨h, by simp⟩
  | cons x rest ih =>
    intro acc e d h
    have h2 : attackAux t rest (attackStep t acc x) = some (e, d) := h
    rcases ih (attackStep t acc x) e d h2 with
      ⟨hacc, hall⟩ | ⟨pre, post, hsplit, hin, hd, haccLt, hpre, hpost⟩
    · -- the stepped accumulator survived the scan of `rest`
      cases acc with
      | none =>
        by_cases hx : inRange t x
        · right
          rw [attackStep, if_pos hx] at hacc
          have hex : x = e ∧ distanceSq t x = d := by
            simpa using hacc
          refine ⟨[], rest, by simp [hex.1], ?_, ?_, ?_, ?_, ?_⟩
          · exact hex.1 ▸ hx
          · exact (hex.1 ▸ hex.2).symm
          · intro c hc
            exact absurd hc (by simp)
          · intro y hy
            exact absurd hy (by simp)
          · exact hall
        · rw [attackStep, if_neg hx] at hacc
          exact absurd hacc (by simp)
      | some p =>
        cases p with
        | mk b c =>
          by_cases hcond : inRange t x ∧ distanceSq t x < c
          · right
            rw [attackStep, if_pos hcond] at hacc
            have hex : x = e ∧ distanceSq t x = d := by
              simpa using hacc
            refine ⟨[], rest, by simp [hex.1], hex.1 ▸ hcond.1,
              (hex.1 ▸ hex.2).symm, ?_, ?_, hall⟩
            · intro c2 hc2
              have : b = c2.1 ∧ c = c2.2 := by
                cases c2
                simpa using hc2
              rw [← this.2, ← hex.2]
              exact hcond.2
            · intro y hy
              exact absurd hy (by simp)
          · left
            rw [attackStep, if_neg hcond] at hacc
            have hex : b = e ∧ c = d := by
              simpa using hacc
            refine ⟨by rw [hex.1, hex.2], ?_⟩
            intro y hy hyr
            rcases List.mem_cons.mp hy with hy1 | hy2
            · subst hy1
              have : ¬ distanceSq t y < c := fun hlt => hcond ⟨hyr, hlt⟩
              rw [← hex.2]
              exact le_of_not_lt this
            · exact hall y hy2 hyr
    · -- the winner came from `rest`
      right
      cases acc with
      | none =>
        by_cases hx : inRange t x
        · refine ⟨x :: pre, post, by simp [hsplit], hin, hd, ?_, ?_, hpost⟩
          · intro c hc
            exact absurd hc (by simp)
          · intro y hy hyr
            rcases List.mem_cons.mp hy with hy1 | hy2
            · subst hy1
              have := haccLt (y, distanceSq t y)
                (by rw [attackStep, if_pos hx])
              simpa using this
            · exact hpre y hy2 hyr
        · refine ⟨x :: pre, post, by simp [hsplit], hin, hd, ?_, ?_, hpost⟩
          · intro c hc
            exact absurd hc (by simp)
          · intro y hy hyr
            rcases List.mem_cons.mp hy with hy1 | hy2
            · subst hy1
              exact absurd hyr hx
            · exact hpre y hy2 hyr
      | some p =>
        cases p with
        | mk b c =>
          by_cases hcond : inRange t x ∧ distanceSq t x < c
          · refine ⟨x :: pre, post, by simp [hsplit], hin, hd, ?_, ?_, hpost⟩
            · intro c2 hc2
              have hx2 := haccLt (x, distanceSq t x)
                (by rw [attackStep, if_pos hcond])
              have : b = c2.1 ∧ c = c2.2 := by
                cases c2
                simpa using hc2
              have hdx : d < distanceSq t x := by simpa using hx2
              rw [← this.2]
              exact lt_trans hdx hcond.2
            · intro y hy hyr
              rcases List.mem_cons.mp hy with hy1 | hy2
              · subst hy1
                have := haccLt (y, distanceSq t y)
                  (by rw [attackStep, if_pos hcond])
                simpa using this
              · exact hpre y hy2 hyr
          · refine ⟨x :: pre, post, by simp [hsplit], hin, hd, ?_, ?_, hpost⟩
            · intro c2 hc2
              have := haccLt (b, c)
                (by rw [attackStep, if_neg hcond])
              have hbc : b = c2.1 ∧ c = c2.2 := by
                cases c2
                simpa using hc2
              rw [← hbc.2]
              simpa using this
            · intro y hy hyr
              rcases List.mem_cons.mp hy with hy1 | hy2
              · subst hy1
                have hdc : d < c := by
                  simpa using haccLt (b, c)
                    (by rw [attackStep, if_neg hcond])
                have hcy : ¬ distanceSq t y < c := fun hlt => hcond ⟨hyr, hlt⟩
                exact lt_of_lt_of_le hdc (le_of_not_lt hcy)
              · exact hpre y hy2 hyr

theorem attackAux_mem (t : Troop) :
    ∀ (es : List Enemy) (e : Enemy) (d : ℚ),
      attackAux t es none = some (e, d) → e ∈ es := by
  intro es e d h
  rcases attackAux_some_spec t es none e d h with ⟨hacc, _⟩ | ⟨pre, post, hs, _⟩
  · exact absurd hacc (by simp)
  · rw [hs]
    simp

/-- C5: `attack` resolves the enemy with the smallest squared world
distance to the unit's tile centre among those strictly within
`range * tileSize`, with equal-distance ties resolved to the first such
enemy in the caller-supplied scan order; it returns `none` when no enemy
is in range, and sets `currentTargetId` to the returned enemy's id or to
`none` accordingly, leaving the troop's other fields unchanged. -/
theorem attack_selects_closest (t : Troop) (es : List Enemy) :
    ((attack t es).1 = none ↔ ∀ e ∈ es, ¬ inRange t e) ∧
    (∀ e, (attack t es).1 = some e →
      e ∈ es ∧ inRange t e ∧
      (∀ x ∈ es, inRange t x → distanceSq t e ≤ distanceSq t x) ∧
      (∃ pre post, es = pre ++ e :: post ∧
        ∀ x ∈ pre, inRange t x → distanceSq t e < distanceSq t x)) ∧
    (attack t es).2.currentTargetId = ((attack t es).1).map Enemy.id ∧
    (attack t es).2.id = t.id ∧ (attack t es).2.position = t.position ∧
    (attack t es).2.range = t.range ∧ (attack t es).2.damage = t.damage := by
  refine ⟨?_, ?_, rfl, rfl, rfl, rfl, rfl⟩
  · show (attackAux t es none).map Prod.fst = none ↔ _
    rw [Option.map_eq_none']
    rw [attackAux_none_iff]
    simp
  · intro e he
    have he2 : ∃ d, attackAux t es none = some (e, d) := by
      have := he
      show ∃ d, _
      rcases hx : attackAux t es none with _ | p
      · rw [show (attack t es).1 = (attackAux t es none).map Prod.fst from rfl,
          hx] at he
        exact absurd he (by simp)
      · rw [show (attack t es).1 = (attackAux t es none).map Prod.fst from rfl,
          hx] at he
        cases p with
        | mk e2 d2 =>
          have : e2 = e := by simpa using he
          exact ⟨d2, by rw [this]⟩
    rcases he2 with ⟨d, hd⟩
    rcases attackAux_some_spec t es none e d hd with
      ⟨hacc, _⟩ | ⟨pre, post, hs, hin, hdd, _, hpre, hpost⟩
    · exact absurd hacc (by simp)
    · subst hdd
      refine ⟨by rw [hs]; simp, hin, ?_, pre, post, hs, hpre⟩
      intro x hx hxr
      rw [hs] at hx
      rcases List.mem_append.mp hx with hx1 | hx2
      · exact le_of_lt (hpre x hx1 hxr)
      · rcases List.mem_cons.mp hx2 with hx3 | hx4
        · rw [hx3]
        · exact hpost x hx4 hxr

/-- Concrete troop used in witnesses: an infantry unit at tile (2,3). -/
def wTroop : Troop :=
  { id := "t1", type := .infantry, position := ⟨2, 3⟩, level := 1,
    range := 2, damage := 1, fireRate := 1, cost := 10 }

/-- Concrete in-range enemy one tile away from `wTroop`. -/
def wEnemyFar : Enemy :=
  { id := "e1", type := "goblin", health := 5, speed := 2,
    position := ⟨3, 3⟩, pathIndex := 0 }

/-- Concrete enemy on the same tile as `wTroop`. -/
def wEnemyNear : Enemy :=
  { id := "e2", type := "goblin", health := 5, speed := 2,
    position := ⟨2, 3⟩, pathIndex := 1 }

theorem attack_selects_closest_witness :
    (attack wTroop [wEnemyFar, wEnemyNear]).1 = some wEnemyNear ∧
    inRange wTroop wEnemyNear ∧
    (∀ x ∈ [wEnemyFar, wEnemyNear], inRange wTroop x →
      distanceSq wTroop wEnemyNear ≤ distanceSq wTroop x) ∧
    (attack wTroop [wEnemyFar, wEnemyNear]).2.currentTargetId = some "e2" := by
  have hres : (attack wTroop [wEnemyFar, wEnemyNear]).1 = some wEnemyNear := by
    norm_num [attack, attackAux, attackStep, inRange, distanceSq, tileSize,
      wTroop, wEnemyFar, wEnemyNear]
  have h :=
    (attack_selects_closest wTroop [wEnemyFar, wEnemyNear]).2.1 wEnemyNear hres
  refine ⟨hres, h.2.1, h.2.2.1, ?_⟩
  show ((attackAux wTroop [wEnemyFar, wEnemyNear] none).map Prod.fst).map
    Enemy.id = some "e2"
  norm_num [attackAux, attackStep, inRange, distanceSq, tileSize,
    wTroop, wEnemyFar, wEnemyNear, Enemy.id]

/-- Body of `upgradeTroop` applied to the found troop.  The guards
`if (upgrade.range)`, `if (upgrade.damage)`, `if (upgrade.fireRate)` use JS
truthiness, so they fire only when the optional field is present AND its
value is non-zero; `troop.level = upgrade.level` is unconditional, and the
upgrade record is appended to the troop's history (created as `[]` first
when absent). -/
def applyUpgrade (u : TroopUpgrade) (t : Troop) : Troop :=
  let t1 : Troop := { t with level := u.level }
  let t2 : Troop :=
    match u.range with
    | some r => if r ≠ 0 then { t1 with range := r } else t1
    | none => t1
  let t3 : Troop :=
    match u.damage with
    | some dm => if dm ≠ 0 then { t2 with damage := dm } else t2
    | none => t2
  let t4 : Troop :=
    match u.fireRate with
    | some fr => if fr ≠ 0 then { t3 with fireRate := fr } else t3
    | none => t3
  { t4 with upgrades := some ((t4.upgrades.getD []) ++ [u]) }

/-- TroopController.upgradeTroop: `this.troops.find((t) => t.id === troopId)`
followed by in-place mutation of the found troop; when no troop matches,
the method returns without touching anything. -/
def upgradeTroop : List Troop → String → TroopUpgrade → List Troop
  | [], _, _ => []
  | t :: ts, i, u =>
    if t.id = i then applyUpgrade u t :: ts else t :: upgradeTroop ts i u

theorem applyUpgrade_range (t : Troop) (u : TroopUpgrade) :
    (applyUpgrade u t).range =
      (match u.range with
       | some r => if r ≠ 0 then r else t.range
       | none => t.range) := by
  unfold applyUpgrade
  rcases u.range with _ | r <;> rcases u.damage with _ | dm <;>
    rcases u.fireRate with _ | fr <;> simp only [] <;> split_ifs <;> rfl

theorem applyUpgrade_damage (t : Troop) (u : TroopUpgrade) :
    (applyUpgrade u t).damage =
      (match u.damage with
       | some dm => if dm ≠ 0 then dm else t.damage
       | none => t.damage) := by
  unfold applyUpgrade
  rcases u.range with _ | r <;> rcases u.damage with _ | dm <;>
    rcases u.fireRate with _ | fr <;> simp only [] <;> split_ifs <;> rfl

theorem applyUpgrade_fireRate (t : Troop) (u : TroopUpgrade) :
    (applyUpgrade u t).fireRate =
      (match u.fireRate with
       | some fr => if fr ≠ 0 then fr else t.fireRate
       | none => t.fireRate) := by
  unfold applyUpgrade
  rcases u.range with _ | r <;> rcases u.damage with _ | dm <;>
    rcases u.fireRate with _ | fr <;> simp only [] <;> split_ifs <;> rfl

theorem applyUpgrade_rest (t : Troop) (u : TroopUpgrade) :
    (applyUpgrade u t).level = u.level ∧
    (applyUpgrade u t).id = t.id ∧
    (applyUpgrade u t).type = t.type ∧
    (applyUpgrade u t).position = t.position ∧
    (applyUpgrade u t).cost = t.cost ∧
    (applyUpgrade u t).currentTargetId = t.currentTargetId ∧
    (applyUpgrade u t).upgrades = some ((t.upgrades.getD []) ++ [u]) := by
  unfold applyUpgrade
  rcases u.range with _ | r <;> rcases u.damage with _ | dm <;>
    rcases u.fireRate with _ | fr <;> simp only [] <;> (try split_ifs) <;>
      simp

/-- C9 (amended): `upgradeTroop` overwrites `level` unconditionally, and
overwrites `range`, `damage`, `fireRate` only when the corresponding field
of the upgrade spec is present with a NON-ZERO value (JS truthiness);
present-but-zero fields are ignored just like absent ones.  All other
fields of the found troop are untouched, the spec is appended to its
upgrade history, every other troop is untouched, and an id without a match
leaves the list unchanged. -/
theorem upgradeTroop_partial_update :
    (∀ (t : Troop) (u : TroopUpgrade),
      (applyUpgrade u t).level = u.level ∧
      (∀ r, u.range = some r → r ≠ 0 → (applyUpgrade u t).range = r) ∧
      ((u.range = none ∨ u.range = some 0) →
        (applyUpgrade u t).range = t.range) ∧
      (∀ dm, u.damage = some dm → dm ≠ 0 → (applyUpgrade u t).damage = dm) ∧
      ((u.damage = none ∨ u.damage = some 0) →
        (applyUpgrade u t).damage = t.damage) ∧
      (∀ fr, u.fireRate = some fr → fr ≠ 0 →
        (applyUpgrade u t).fireRate = fr) ∧
      ((u.fireRate = none ∨ u.fireRate = some 0) →
        (applyUpgrade u t).fireRate = t.fireRate) ∧
      (applyUpgrade u t).id = t.id ∧
      (applyUpgrade u t).type = t.type ∧
      (applyUpgrade u t).position = t.position ∧
      (applyUpgrade u t).cost = t.cost ∧
      (applyUpgrade u t).upgrades = some ((t.upgrades.getD []) ++ [u])) ∧
    (∀ (pre post : List Troop) (t : Troop) (i : String) (u : TroopUpgrade),
      (∀ p ∈ pre, p.id ≠ i) → t.id = i →
      upgradeTroop (pre ++ t :: post) i u = pre ++ applyUpgrade u t :: post) ∧
    (∀ (ts : List Troop) (i : String) (u : TroopUpgrade),
      (∀ p ∈ ts, p.id ≠ i) → upgradeTroop ts i u = ts) := by
  refine ⟨?_, ?_, ?_⟩
  · intro t u
    have hrest := applyUpgrade_rest t u
    refine ⟨hrest.1, ?_, ?_, ?_, ?_, ?_, ?_, hrest.2.1, hrest.2.2.1,
      hrest.2.2.2.1, hrest.2.2.2.2.1, hrest.2.2.2.2.2.2⟩
    · intro r hr hr0
      rw [applyUpgrade_range, hr]
      simp [hr0]
    · intro hr
      rcases hr with hr | hr <;> rw [applyUpgrade_range, hr] <;> simp
    · intro dm hdm hdm0
      rw [applyUpgrade_damage, hdm]
      simp [hdm0]
    · intro hdm
      rcases hdm with hdm | hdm <;> rw [applyUpgrade_damage, hdm] <;> simp
    · intro fr hfr hfr0
      rw [applyUpgrade_fireRate, hfr]
      simp [hfr0]
    · intro hfr
      rcases hfr with hfr | hfr <;> rw [applyUpgrade_fireRate, hfr] <;> simp
  · intro pre post t i u hpre ht
    induction pre with
    | nil => simp [upgradeTroop, ht]
    | cons p rest ih =>
      have hp : p.id ≠ i := hpre p (by simp)
      simp only [List.cons_append, upgradeTroop, if_neg hp, List.append_eq]
      rw [ih fun q hq => hpre q (by simp [hq])]
  · intro ts i u hts
    induction ts with
    | nil => rfl
    | cons p rest ih =>
      have hp : p.id ≠ i := hts p (by simp)
      simp only [upgradeTroop, if_neg hp]
      rw [ih fun q hq => hts q (by simp [hq])]

/-- Concrete base troop for the upgrade statements. -/
def trBase : Troop :=
  { id := "tr1", type := .infantry, position := ⟨1, 1⟩, level := 1,
    range := 2, damage := 1, fireRate := 1, cost := 10 }

/-- Concrete upgrade spec whose `range` field is present with value 0. -/
def upZeroRange : TroopUpgrade := { level := 2, cost := 5, range := some 0 }

/-- C9 counterexample: the upgrade spec `{level: 2, cost: 5, range: 0}` has
its `range` field present, yet `upgradeTroop` leaves the troop's range at
its prior value 2 instead of overwriting it with 0, because the source
guard `if (upgrade.range)` is false for the value 0. -/
theorem upgradeTroop_zero_range_ignored :
    upZeroRange.range = some 0 ∧
    (upgradeTroop [trBase] "tr1" upZeroRange).map Troop.range = [2] ∧
    (upgradeTroop [trBase] "tr1" upZeroRange).map Troop.range ≠ [0] := by
  refine ⟨rfl, ?_, ?_⟩ <;>
    norm_num [upgradeTroop, applyUpgrade, trBase, upZeroRange]

theorem upgradeTroop_partial_update_witness :
    (applyUpgrade upZeroRange trBase).level = upZeroRange.level ∧
    (applyUpgrade upZeroRange trBase).range = trBase.range ∧
    upgradeTroop [trBase] "tr1" upZeroRange =
      [applyUpgrade upZeroRange trBase] := by
  refine ⟨(upgradeTroop_partial_update.1 trBase upZeroRange).1, ?_, ?_⟩
  · exact (upgradeTroop_partial_update.1 trBase upZeroRange).2.2.1
      (Or.inr rfl)
  · have h := upgradeTroop_partial_update.2.1 [] [] trBase "tr1" upZeroRange
      (by simp) rfl
    simpa using h

end TroopController

/-! ## Enemy controller (`src/client/utils/enemyController.ts`) -/

namespace EnemyController

/-- Mutable state of an `EnemyController`: the live-enemy list, the keys of
the `enemyMeshes` map, and the ids of the enemy meshes currently added to
the scene (the Three.js mesh objects carry no simulation data, so they are
identified by their enemy id). -/
structure ECState where
  enemies : List Enemy
  meshes : List String
  scene : List String
deriving DecidableEq, Repr

/-- Map.set on the mesh registry: keeps the existing key slot or appends a
new one. -/
def meshSet (l : List String) (k : String) : List String :=
  if k ∈ l then l else l ++ [k]

/-- The enemy record built by `spawnEnemy`: health and speed from the
controller's local ENEMY_CONFIG (whose entries agree with the game's),
position at the path's first waypoint, `pathIndex = 0`.  The random id
string `type-Date.now()-random` is supplied as `freshId`. -/
def mkSpawned (ty : EnemyType) (freshId : String) (start : Pos) : Enemy :=
  { id := freshId, type := ty.str, health := (ENEMY_CONFIG ty).health,
    speed := (ENEMY_CONFIG ty).speed, position := start, pathIndex := 0 }

/-- EnemyController.spawnEnemy: throws `'Cannot spawn enemy: path has no
waypoints'` when `path.waypoints[0]` is undefined; otherwise appends the
new enemy, registers its mesh and adds it to the scene. -/
def spawnEnemy (ty : EnemyType) (p : Path) (freshId : String) (s : ECState) :
    Except String (Enemy × ECState) :=
  match p.waypoints.head? with
  | none => .error "Cannot spawn enemy: path has no waypoints"
  | some startTile =>
    let e := mkSpawned ty freshId startTile
    .ok (e,
      { enemies := s.enemies ++ [e], meshes := meshSet s.meshes freshId,
        scene := s.scene ++ [freshId] })

/-- EnemyController.removeEnemy: when a mesh is registered for the id, it
is removed from the scene and the registry; the live list is then filtered
by id in all cases. -/
def removeEnemy (s : ECState) (enemyId : String) : ECState :=
  let s2 :=
    if enemyId ∈ s.meshes then
      { s with scene := s.scene.filter (fun m => m ≠ enemyId),
               meshes := s.meshes.filter (fun m => m ≠ enemyId) }
    else s
  { s2 with enemies := s2.enemies.filter (fun e => e.id ≠ enemyId) }

theorem filter_ne_idem (l : List Enemy) (i : String) :
    ((l.filter fun e => e.id ≠ i).filter fun e => e.id ≠ i) =
      l.filter fun e => e.id ≠ i := by
  rw [List.filter_filter]
  apply List.filter_congr
  intro a _
  simp

theorem removeEnemy_def (es : List Enemy) (ms sc : List String)
    (i : String) :
    removeEnemy ⟨es, ms, sc⟩ i =
      if i ∈ ms then
        ⟨es.filter (fun e => e.id ≠ i), ms.filter (fun m => m ≠ i),
         sc.filter (fun m => m ≠ i)⟩
      else ⟨es.filter (fun e => e.id ≠ i), ms, sc⟩ := by
  by_cases h : i ∈ ms <;> simp [removeEnemy, h]

theorem not_mem_filter_ne (ms : List String) (i : String) :
    i ∉ ms.filter (fun m => m ≠ i) := by
  simp [List.mem_filter]

/-- C8: calling `removeEnemy` twice for the same id leaves the live-enemy
collection, the mesh registry and the scene in the same state as calling
it once — the second call is a no-op — and an id that was never present
leaves the state entirely unchanged; no call can raise an error. -/
theorem removeEnemy_idempotent :
    (∀ (s : ECState) (i : String),
      removeEnemy (removeEnemy s i) i = removeEnemy s i) ∧
    (∀ (s : ECState) (i : String),
      i ∉ s.meshes → (∀ e ∈ s.enemies, e.id ≠ i) →
      removeEnemy s i = s) := by
  constructor
  · intro s i
    cases s with
    | mk es ms sc =>
      by_cases h : i ∈ ms
      · rw [removeEnemy_def es ms sc i, if_pos h]
        rw [removeEnemy_def, if_neg (not_mem_filter_ne ms i)]
        simp [filter_ne_idem]
      · rw [removeEnemy_def es ms sc i, if_neg h]
        rw [removeEnemy_def, if_neg h]
        simp [filter_ne_idem]
  · intro s i hm he
    cases s with
    | mk es ms sc =>
      rw [removeEnemy_def, if_neg hm]
      have hes : es.filter (fun e => e.id ≠ i) = es :=
        List.filter_eq_self.mpr fun e hese => by simpa using he e hese
      rw [hes]

theorem removeEnemy_idempotent_witness :
    removeEnemy (removeEnemy ⟨[TroopController.wEnemyNear], ["e2"], ["e2"]⟩ "e2") "e2" =
      removeEnemy ⟨[TroopController.wEnemyNear], ["e2"], ["e2"]⟩ "e2" ∧
    removeEnemy ⟨[TroopController.wEnemyNear], ["e2"], ["e2"]⟩ "zzz" =
      ⟨[TroopController.wEnemyNear], ["e2"], ["e2"]⟩ := by
  constructor
  · exact removeEnemy_idempotent.1 ⟨[TroopController.wEnemyNear], ["e2"], ["e2"]⟩ "e2"
  · exact removeEnemy_idempotent.2 ⟨[TroopController.wEnemyNear], ["e2"], ["e2"]⟩ "zzz"
      (by simp)
      (by
        intro e hes
        simp at hes
        simp [hes, TroopController.wEnemyNear])

end EnemyController

/-! ## Devvit game orchestrator (`src/client/devvit.ts`) -/

namespace Devvit

open EnemyController

/-- The JS expression `pathId || 'main'`: `undefined` and the empty string
are both falsy. -/
def resolvePathId (pathId : Option String) : String :=
  match pathId with
  | some s => if s = "" then "main" else s
  | none => "main"

/-- `this.mapGrid.paths.find((p) => p.id === (pathId || 'main'))`. -/
def findPath (paths : List Path) (pathId : Option String) : Option Path :=
  paths.find? fun p => p.id = resolvePathId pathId

/-- Game.spawnEnemy from `devvit.ts`: resolves the path, warns and returns
when no path is found or its waypoint list is empty, and only then
delegates to the controller; the guard makes the controller's exception
unreachable, which the `Except` result makes explicit. -/
def spawnEnemyGuard (paths : List Path) (ty : EnemyType)
    (pathId : Option String) (freshId : String) (ec : ECState) :
    Except String ECState :=
  match findPath paths pathId with
  | none => .ok ec
  | some p =>
    if p.waypoints.length = 0 then .ok ec
    else
      match EnemyController.spawnEnemy ty p freshId ec with
      | .ok (_, ec2) => .ok ec2
      | .error msg => .error msg

/-- C7: a spawn request against a path with no waypoints is rejected.  The
bare controller throws, but the tick-loop wrapper `Game.spawnEnemy` checks
the waypoint list first: it leaves the whole state unchanged (no enemy
created or appended, no mesh registered) and never propagates an
exception; in fact no call of the wrapper can yield an error at all, so a
failed spawn is isolated and the simulation continues. -/
theorem spawnEnemy_empty_path_rejected :
    (∀ (ty : EnemyType) (p : Path) (fid : String) (ec : ECState),
      p.waypoints = [] →
      EnemyController.spawnEnemy ty p fid ec =
        .error "Cannot spawn enemy: path has no waypoints") ∧
    (∀ (paths : List Path) (ty : EnemyType) (pid : Option String)
        (fid : String) (ec : ECState),
      (∀ p, findPath paths pid = some p → p.waypoints = []) →
      spawnEnemyGuard paths ty pid fid ec = .ok ec) ∧
    (∀ (paths : List Path) (ty : EnemyType) (pid : Option String)
        (fid : String) (ec : ECState),
      ∃ ec2, spawnEnemyGuard paths ty pid fid ec = .ok ec2) := by
  refine ⟨?_, ?_, ?_⟩
  · intro ty p fid ec hp
    unfold EnemyController.spawnEnemy
    rw [hp]
    rfl
  · intro paths ty pid fid ec hall
    unfold spawnEnemyGuard
    rcases hfp : findPath paths pid with _ | p
    · rfl
    · have hw := hall p hfp
      simp [hw]
  · intro paths ty pid fid ec
    unfold spawnEnemyGuard
    rcases hfp : findPath paths pid with _ | p
    · exact ⟨ec, rfl⟩
    · by_cases hw : p.waypoints.length = 0
      · exact ⟨ec, by simp [hw]⟩
      · rcases hhead : p.waypoints.head? with _ | w
        · rw [List.head?_eq_none_iff] at hhead
          exact absurd (by rw [hhead]; rfl) hw
        · refine ⟨⟨ec.enemies ++ [mkSpawned ty fid w], meshSet ec.meshes fid,
            ec.scene ++ [fid]⟩, ?_⟩
          simp only [EnemyController.spawnEnemy, hhead, if_neg hw]

/-- A path record with an empty waypoint list, used in the C7 witness. -/
def emptyMainPath : Path := { id := "main", waypoints := [], ground := true }

/-- An empty enemy-controller state, used in witnesses. -/
def ecEmpty : ECState := ⟨[], [], []⟩

theorem spawnEnemy_empty_path_rejected_witness :
    EnemyController.spawnEnemy .goblin emptyMainPath "g1" ecEmpty =
      .error "Cannot spawn enemy: path has no waypoints" ∧
    spawnEnemyGuard [emptyMainPath] .goblin none "g1" ecEmpty = .ok ecEmpty := by
  constructor
  · exact spawnEnemy_empty_path_rejected.1 .goblin emptyMainPath "g1" ecEmpty
      rfl
  · exact spawnEnemy_empty_path_rejected.2.1 [emptyMainPath] .goblin none "g1"
      ecEmpty
      (by
        intro p hp
        have h2 : p = emptyMainPath := by
          have : findPath [emptyMainPath] none = some emptyMainPath := by
            simp [findPath, resolvePathId, emptyMainPath, List.find?]
          rw [this] at hp
          exact (Option.some.injEq _ _ ▸ hp).symm
        rw [h2]
        rfl)

/-- State touched by `Game.placeTroop`: the player's money, the tile grid,
and the three troop collections that all receive the new troop
(`troopController.addTroop`, `this.troops.push`,
`this.playerState.troops.push`). -/
structure PlaceSt where
  money : ℚ
  tiles : List (List Tile)
  ctrlTroops : List Troop
  gameTroops : List Troop
  playerTroops : List Troop
deriving DecidableEq, Repr

/-- The tile lookup `this.mapGrid.tiles[y]?.[x]`. -/
def tileAt (tiles : List (List Tile)) (x y : ℤ) : Option Tile :=
  match listGetI tiles y with
  | none => none
  | some row => listGetI row x

/-- In-place mutation of the tile object `tiles[y][x]`. -/
def modifyTile (tiles : List (List Tile)) (x y : ℤ) (f : Tile → Tile) :
    List (List Tile) :=
  if 0 ≤ y ∧ 0 ≤ x then
    listModify tiles y.toNat fun row => listModify row x.toNat f
  else tiles

/-- Game.placeTroop from `devvit.ts` (the `game.ts` variant has the same
rejection logic and state changes).  The unique id
`type-Date.now()-x-y` is supplied as `freshId`.  `TROOP_CONFIG[type]` is a
total lookup in the typed embedding, so the `!troopConfig` rejection
branch is unreachable.  HUD/render calls and the fire-and-forget
`saveState()` are outside the modelled state. -/
def placeTroop (x y : ℤ) (ty : Option TroopType) (freshId : String)
    (s : PlaceSt) : PlaceSt :=
  match ty with
  | none => s
  | some t =>
    match tileAt s.tiles x y with
    | none => s
    | some tile =>
      if tile.occupied then s
      else if s.money < (TROOP_CONFIG t).cost then s
      else
        let cfg := TROOP_CONFIG t
        let troop : Troop :=
          { id := freshId, type := t, position := ⟨(x : ℚ), (y : ℚ)⟩,
            level := 1, range := cfg.range, damage := cfg.damage,
            fireRate := cfg.fireRate, cost := cfg.cost }
        { money := s.money - cfg.cost,
          tiles := modifyTile s.tiles x y fun tl => { tl with occupied := true },
          ctrlTroops := s.ctrlTroops ++ [troop],
          gameTroops := s.gameTroops ++ [troop],
          playerTroops := s.playerTroops ++ [troop] }

/-- Tile (x,y) as initialised in `Game.prepare` of `devvit.ts`: border rows
mountain, border columns water, `(x+y) % 5 == 0` dirt, rock obstacles at
(3,2) and (6,4); every tile starts unoccupied with highlight 'none'. -/
def mkPreparedTile (x y : ℤ) : Tile :=
  let terrain : TerrainType :=
    if y = 0 ∨ y = 6 - 1 then .mountain
    else if x = 0 ∨ x = 10 - 1 then .water
    else if (x + y) % 5 = 0 then .dirt
    else .grass
  let obstacle : ObstacleType :=
    if (x = 3 ∧ y = 2) ∨ (x = 6 ∧ y = 4) then .rock else .onone
  { x := x, y := y, occupied := false, highlight := some .hlNone,
    terrainType := some terrain, obstacle := some obstacle }

/-- The 10×6 tile grid built in `Game.prepare` of `devvit.ts`. -/
def preparedTiles : List (List Tile) :=
  (List.range 6).map fun y =>
    (List.range 10).map fun x => mkPreparedTile (x : ℤ) (y : ℤ)

/-- The ground path `main` of `devvit.ts`: waypoints `(i, floor(6/2))` for
`i = 0, …, 9`. -/
def groundPath : Path :=
  { id := "main",
    waypoints := (List.range 10).map fun i => ⟨(i : ℚ), 3⟩,
    ground := true }

/-- The air path `fly` of `devvit.ts` (its renderer-only spline points are
not part of the simulation state). -/
def airPath : Path :=
  { id := "fly",
    waypoints := [⟨0, 1⟩, ⟨3, 0⟩, ⟨6, 5⟩, ⟨9, 4⟩],
    ground := false }

/-- C4 (amended): `placeTroop` rejects synchronously with no state change
when no troop type is selected, when the target tile is missing or
occupied, or when money is strictly below the unit's cost; money, the
grid and all three troop collections are left untouched and no exception
can escape (the embedding is a total function).  The tile's obstacle tag,
however, is never inspected: obstructed-but-unoccupied tiles do NOT cause
rejection. -/
theorem placeTroop_rejects_without_mutation (x y : ℤ) (ty : TroopType)
    (fid : String) (s : PlaceSt) :
    (placeTroop x y none fid s = s) ∧
    (tileAt s.tiles x y = none → placeTroop x y (some ty) fid s = s) ∧
    (∀ tile, tileAt s.tiles x y = some tile → tile.occupied = true →
      placeTroop x y (some ty) fid s = s) ∧
    (s.money < (TROOP_CONFIG ty).cost → placeTroop x y (some ty) fid s = s) := by
  refine ⟨rfl, ?_, ?_, ?_⟩
  · intro h
    unfold placeTroop
    rw [h]
  · intro tile h hocc
    unfold placeTroop
    rw [h]
    simp [hocc]
  · intro hmoney
    unfold placeTroop
    rcases h : tileAt s.tiles x y with _ | tile
    · rfl
    · by_cases hocc : tile.occupied
      · simp [hocc]
      · simp [hocc, hmoney]

/-- Scenario-D state: money 5, the prepared grid, no troops anywhere. -/
def placeStPoor : PlaceSt :=
  { money := 5, tiles := preparedTiles, ctrlTroops := [], gameTroops := [],
    playerTroops := [] }

theorem placeTroop_rejects_without_mutation_witness :
    placeTroop 1 1 (some .infantry) "inf1" placeStPoor = placeStPoor := by
  exact (placeTroop_rejects_without_mutation 1 1 .infantry "inf1"
    placeStPoor).2.2.2 (by norm_num [placeStPoor, TROOP_CONFIG])

/-- State with money 100, the prepared grid and no troops. -/
def placeStRich : PlaceSt :=
  { money := 100, tiles := preparedTiles, ctrlTroops := [], gameTroops := [],
    playerTroops := [] }

/-- The troop record placed by the C4 counterexample. -/
def c4Troop : Troop :=
  { id := "inf1", type := .infantry,
    position := ⟨((3 : ℤ) : ℚ), ((2 : ℤ) : ℚ)⟩, level := 1,
    range := 2, damage := 1, fireRate := 1, cost := 10 }

/-- C4 counterexample: tile (3,2) of the prepared grid carries a `rock`
obstacle and is unoccupied, yet placing an infantry unit there with money
100 is NOT rejected — money drops to 90, the tile becomes occupied and
the unit is appended to the collections, because `placeTroop` never
checks the obstacle tag. -/
theorem placeTroop_ignores_obstacle :
    (tileAt preparedTiles 3 2).map Tile.obstacle = some (some .rock) ∧
    (tileAt preparedTiles 3 2).map Tile.occupied = some false ∧
    (placeTroop 3 2 (some .infantry) "inf1" placeStRich).money = 90 ∧
    ((tileAt (placeTroop 3 2 (some .infantry) "inf1" placeStRich).tiles
      3 2).map Tile.occupied) = some true ∧
    (placeTroop 3 2 (some .infantry) "inf1" placeStRich).playerTroops.length
      = 1 ∧
    (placeTroop 3 2 (some .infantry) "inf1" placeStRich).money ≠
      placeStRich.money := by
  have htile : tileAt preparedTiles 3 2 = some (mkPreparedTile 3 2) := by
    decide
  have hocc : (mkPreparedTile 3 2).occupied = false := by decide
  have hmoney : ¬ ((100 : ℚ) < (TROOP_CONFIG TroopType.infantry).cost) := by
    norm_num [TROOP_CONFIG]
  have hred : placeTroop 3 2 (some .infantry) "inf1" placeStRich =
      { money := (100 : ℚ) - 10,
        tiles := modifyTile preparedTiles 3 2
          fun tl => { tl with occupied := true },
        ctrlTroops := [c4Troop], gameTroops := [c4Troop],
        playerTroops := [c4Troop] } := by
    simp only [placeTroop, placeStRich]
    rw [htile]
    simp only [hocc, Bool.false_eq_true, if_false, if_neg hmoney]
    rfl
  refine ⟨by decide, by decide, ?_, ?_, ?_, ?_⟩
  · rw [hred]
    norm_num
  · rw [hred]
    decide
  · rw [hred]
    rfl
  · rw [hred]
    norm_num [placeStRich]

end Devvit

/-! ## Shared per-tick machinery -/

/-- The `GameState` union of both orchestrator variants. -/
inductive GState where
  | loading
  | ready
  | playing
  | ended
  | resetting
deriving DecidableEq, Repr

/-- Type of the fractional-advance oracle: given the enemy, the target
waypoint and the tick's `deltaTime`, it yields the enemy's new position.
The source computes
`position += (d / Math.sqrt(dx*dx+dy*dy)) * (moveSpeed / tileSize)`,
which is irrational over ℚ, so the tick functions are parameterised over
it and every theorem quantifies over all oracles. -/
def FracFun : Type := Enemy → Pos → ℚ → Pos

/-- A concrete oracle (leave the position unchanged) used only to
instantiate witnesses and counterexamples whose enemies never take the
fractional-advance branch. -/
def frac0 : FracFun := fun e _ _ => e.position

/-- Squared world distance from the enemy's world position to the target
waypoint's world position (`dx*dx + dy*dy` for
`dx = wp.x*tileSize - pos.x*tileSize` etc.); the source compares its
square root against `moveSpeed`. -/
def moveDistSq (e : Enemy) (wp : Pos) : ℚ :=
  let dx := wp.x * tileSize - e.position.x * tileSize
  let dy := wp.y * tileSize - e.position.y * tileSize
  dx * dx + dy * dy

/-- One pending spawn group of the active wave
(`{ type, count, spawned, pathId }` in `startNextWave`). -/
structure WaveGroup where
  type : EnemyType
  count : ℕ
  spawned : ℕ
  pathId : Option String := none
deriving DecidableEq, Repr

/-- The first group with `spawned < count`, split from its context
(the spawn loop walks the config in order and breaks at the first
still-pending group). -/
def splitFirstPending :
    List WaveGroup → Option (List WaveGroup × WaveGroup × List WaveGroup)
  | [] => none
  | g :: rest =>
    if g.spawned < g.count then some ([], g, rest)
    else
      match splitFirstPending rest with
      | none => none
      | some (pre, g2, post) => some (g :: pre, g2, post)

namespace Devvit

open EnemyController

/-- The full mutable state of the devvit-variant `Game` that the per-tick
update touches.  `gameEnemies` is the `Game.enemies` field (the array
`updateTroops` scans), distinct from the enemy controller's list;
`pendingNextWave` records that `setTimeout(() => startNextWave(), 3000)`
was scheduled (the callback itself runs outside the tick). -/
structure DevSt where
  gameState : GState
  money : ℚ
  lives : ℚ
  currentWave : ℚ
  troops : List Troop
  gameEnemies : List Enemy
  ec : ECState
  paths : List Path
  waveInProgress : Bool
  waveTimer : ℚ
  currentWaveConfig : Option (List WaveGroup)
  troopAttackTimers : List (String × ℚ)
  activeTargetLines : List String
  pendingNextWave : Bool
deriving DecidableEq, Repr

/-- Game.endGame: an early return when already ended, otherwise
`updateState('ended')`; the score submission and DOM updates are
external. -/
def endGame (s : DevSt) : DevSt :=
  if s.gameState = .ended then s else { s with gameState := .ended }

/-- Total form of the spawn wrapper used inside the tick: by
`spawnEnemy_empty_path_rejected` the error branch is unreachable, so the
fallback to the unchanged state is never taken. -/
def spawnEnemyRun (paths : List Path) (ty : EnemyType) (pid : Option String)
    (fid : String) (ec : ECState) : ECState :=
  match spawnEnemyGuard paths ty pid fid ec with
  | .ok ec2 => ec2
  | .error _ => ec

/-- The wave-spawn block at the top of `updateEnemies`: while a wave is in
progress, drain the spawn timer by `deltaTime`; on expiry spawn one enemy
from the first still-pending group, bump its `spawned` counter and reset
the timer to 1000 ms (the timer is only reset when something spawned). -/
def spawnPass (fid : String) (dt : ℚ) (s : DevSt) : DevSt :=
  if s.waveInProgress then
    match s.currentWaveConfig with
    | none => s
    | some cfg =>
      let timer := s.waveTimer - dt
      if timer ≤ 0 then
        match splitFirstPending cfg with
        | none => { s with waveTimer := timer }
        | some (pre, g, post) =>
          { s with
            ec := spawnEnemyRun s.paths g.type g.pathId fid s.ec,
            currentWaveConfig :=
              some (pre ++ { g with spawned := g.spawned + 1 } :: post),
            waveTimer := 1000 }
      else { s with waveTimer := timer }
  else s

/-- The body of the per-enemy loop of `updateEnemies` (`devvit.ts`
lines 925-963): an enemy whose `pathIndex` is at or past the last waypoint
of the `main` path loses the player a life and is removed through the
enemy controller (with `endGame(false)` once lives reach 0); otherwise the
enemy advances towards the next waypoint, snapping onto it (and
incrementing `pathIndex`) when the remaining distance is below this tick's
movement, where the snap test `Math.sqrt(distSq) < moveSpeed` is desugared
to `0 < moveSpeed ∧ distSq < moveSpeed²`. -/
def enemyPass (frac : FracFun) (dt : ℚ) (e : Enemy) (s : DevSt) : DevSt :=
  match findPath s.paths none with
  | none => s
  | some path =>
    if path.waypoints.length = 0 then s
    else if (path.waypoints.length : ℤ) - 1 ≤ e.pathIndex then
      let lives2 := s.lives - 1
      let s2 := { s with lives := lives2, ec := removeEnemy s.ec e.id }
      if lives2 ≤ 0 then endGame s2 else s2
    else
      match listGetI path.waypoints (e.pathIndex + 1) with
      | none => s
      | some wp =>
        let moveSpeed := e.speed * tileSize * dt / 1000
        let e2 :=
          if 0 < moveSpeed ∧ moveDistSq e wp < moveSpeed * moveSpeed then
            { e with position := wp, pathIndex := e.pathIndex + 1 }
          else { e with position := frac e wp dt }
        { s with
          ec := { s.ec with
            enemies := s.ec.enemies.map fun x => if x.id = e.id then e2 else x } }

/-- The wave-complete check at the bottom of `updateEnemies`: when the
active wave is fully spawned and no live enemy remains, the wave ends;
below wave 10 the next wave is scheduled via `setTimeout`, otherwise the
player wins. -/
def waveCompletePass (s : DevSt) : DevSt :=
  if s.waveInProgress then
    match s.currentWaveConfig with
    | none => s
    | some cfg =>
      if s.ec.enemies.length = 0 then
        if cfg.all fun g => g.count ≤ g.spawned then
          let s2 := { s with waveInProgress := false }
          if s2.currentWave < 10 then { s2 with pendingNextWave := true }
          else endGame s2
        else s
      else s
  else s

/-- Game.updateEnemies of `devvit.ts`: the spawn block, then the per-enemy
loop walking a snapshot of the controller's list from the last index down
to 0 (`removeEnemy` rebinds the controller's internal array, so the
snapshot captured before the loop is unaffected by removals), then the
wave-complete check against the controller's current list. -/
def updateEnemies (frac : FracFun) (fid : String) (dt : ℚ) (s : DevSt) :
    DevSt :=
  let s1 := spawnPass fid dt s
  let s2 := s1.ec.enemies.reverse.foldl
    (fun acc e => enemyPass frac dt e acc) s1
  waveCompletePass s2

/-- Set.add on `activeTargetLines`. -/
def linesInsert (l : List String) (k : String) : List String :=
  if k ∈ l then l else l ++ [k]

/-- The body of the per-troop loop of `updateTroops` (`devvit.ts`
lines 1060-1093).  The cooldown is drained by `deltaTime` and written back
BEFORE any target check; a troop still on cooldown is skipped; otherwise
`troopController.attack` resolves a target over `Game.enemies`
(`gameEnemies`), and a hit drains the target's health (mutating the shared
enemy object, embedded as an id-keyed update of both enemy lists), marks
the attack line, resets the cooldown to `1000 / fireRate`, and on a kill
awards the reward and removes the enemy through the controller.  The pair
accumulator carries the troops already processed (with their mutated
`currentTargetId`). -/
def troopPass (dt : ℚ) (a : DevSt × List Troop) (t : Troop) :
    DevSt × List Troop :=
  let s := a.1
  let t0 := (mapGet s.troopAttackTimers t.id).getD 0
  let t1 := t0 - dt
  let s := { s with troopAttackTimers := mapSet s.troopAttackTimers t.id t1 }
  if 0 < t1 then (s, a.2 ++ [t])
  else
    let res := TroopController.attack t s.gameEnemies
    match res.1 with
    | none =>
      ({ s with activeTargetLines := s.activeTargetLines.filter (· ≠ t.id) },
       a.2 ++ [res.2])
    | some e =>
      let h2 := e.health - t.damage
      let dmg : Enemy → Enemy :=
        fun x => if x.id = e.id then { x with health := h2 } else x
      let s := { s with
        gameEnemies := s.gameEnemies.map dmg,
        ec := { s.ec with enemies := s.ec.enemies.map dmg },
        activeTargetLines := linesInsert s.activeTargetLines t.id,
        troopAttackTimers :=
          mapSet s.troopAttackTimers t.id (1000 / t.fireRate) }
      if h2 ≤ 0 then
        let s := { s with money := s.money + rewardOf e.type }
        let s :=
          if s.gameEnemies.any fun x => x.id = e.id then
            { s with ec := removeEnemy s.ec e.id }
          else s
        ({ s with
           activeTargetLines := s.activeTargetLines.filter (· ≠ t.id) },
         a.2 ++ [res.2])
      else (s, a.2 ++ [res.2])

/-- Game.updateTroops of `devvit.ts`: clears `activeTargetLines`, then
walks the controller's troop list applying `troopPass`. -/
def updateTroops (dt : ℚ) (s : DevSt) : DevSt :=
  let r := s.troops.foldl (troopPass dt) ({ s with activeTargetLines := [] }, [])
  { r.1 with troops := r.2 }

/-- Game.update: the tick body `updateEnemies` then `updateTroops`. -/
def update (frac : FracFun) (fid : String) (dt : ℚ) (s : DevSt) : DevSt :=
  updateTroops dt (updateEnemies frac fid dt s)

theorem endGame_fields (s : DevSt) :
    (endGame s).money = s.money ∧ (endGame s).lives = s.lives ∧
    (endGame s).gameState = .ended := by
  unfold endGame
  by_cases h : s.gameState = .ended <;> simp [h]

theorem spawnPass_fields (fid : String) (dt : ℚ) (s : DevSt) :
    (spawnPass fid dt s).money = s.money ∧
    (spawnPass fid dt s).lives = s.lives ∧
    (spawnPass fid dt s).gameState = s.gameState := by
  unfold spawnPass
  repeat' (first | split | simp only [])
  all_goals first | trivial | (refine ⟨?_, ?_, ?_⟩ <;> trivial)

theorem enemyPass_inv (frac : FracFun) (dt : ℚ) (e : Enemy) (s : DevSt)
    (h : s.lives < 0 → s.gameState = .ended) :
    (enemyPass frac dt e s).money = s.money ∧
    ((enemyPass frac dt e s).lives < 0 →
      (enemyPass frac dt e s).gameState = .ended) := by
  unfold enemyPass
  split
  · exact ⟨rfl, h⟩
  · split
    · exact ⟨rfl, h⟩
    · split
      · simp only []
        split
        · exact ⟨(endGame_fields _).1, fun _ => (endGame_fields _).2.2⟩
        · rename_i hle
          exact ⟨rfl, fun hneg => absurd (le_of_lt hneg) hle⟩
      · split
        · exact ⟨rfl, h⟩
        · exact ⟨rfl, h⟩

theorem foldl_enemyPass_inv (frac : FracFun) (dt : ℚ) (es : List Enemy) :
    ∀ s : DevSt, (s.lives < 0 → s.gameState = .ended) →
      (es.foldl (fun acc e => enemyPass frac dt e acc) s).money = s.money ∧
      ((es.foldl (fun acc e => enemyPass frac dt e acc) s).lives < 0 →
        (es.foldl (fun acc e => enemyPass frac dt e acc) s).gameState
          = .ended) := by
  induction es with
  | nil => exact fun s h => ⟨rfl, h⟩
  | cons e rest ih =>
    intro s h
    have h1 := enemyPass_inv frac dt e s h
    have h2 := ih (enemyPass frac dt e s) h1.2
    exact ⟨h2.1.trans h1.1, h2.2⟩

theorem waveCompletePass_inv (s : DevSt)
    (h : s.lives < 0 → s.gameState = .ended) :
    (waveCompletePass s).money = s.money ∧
    (waveCompletePass s).lives = s.lives ∧
    ((waveCompletePass s).lives < 0 →
      (waveCompletePass s).gameState = .ended) := by
  unfold waveCompletePass
  repeat' (first | split | simp only [])
  all_goals first | trivial | refine ⟨?_, ?_, ?_⟩
  all_goals
    first
    | trivial
    | exact h
    | exact (endGame_fields _).1
    | exact (endGame_fields _).2.1
    | exact fun _ => (endGame_fields _).2.2

theorem rewardOf_nonneg (ty : String) : 0 ≤ rewardOf ty := by
  unfold rewardOf
  split_ifs <;> norm_num

theorem troopPass_inv (dt : ℚ) (a : DevSt × List Troop) (t : Troop) :
    a.1.money ≤ (troopPass dt a t).1.money ∧
    (troopPass dt a t).1.lives = a.1.lives ∧
    (troopPass dt a t).1.gameState = a.1.gameState := by
  unfold troopPass
  repeat' (first | split | simp only [])
  all_goals first | trivial | refine ⟨?_, ?_, ?_⟩
  all_goals
    first
    | trivial
    | exact le_refl _
    | exact le_add_of_nonneg_right (rewardOf_nonneg _)

theorem foldl_troopPass_inv (dt : ℚ) (ts : List Troop) :
    ∀ a : DevSt × List Troop,
      a.1.money ≤ (ts.foldl (troopPass dt) a).1.money ∧
      (ts.foldl (troopPass dt) a).1.lives = a.1.lives ∧
      (ts.foldl (troopPass dt) a).1.gameState = a.1.gameState := by
  induction ts with
  | nil => exact fun a => ⟨le_refl _, rfl, rfl⟩
  | cons t rest ih =>
    intro a
    have h1 := troopPass_inv dt a t
    have h2 := ih (troopPass dt a t)
    exact ⟨h1.1.trans h2.1, h2.2.1.trans h1.2.1, h2.2.2.trans h1.2.2⟩

theorem updateTroops_inv (dt : ℚ) (s : DevSt) :
    s.money ≤ (updateTroops dt s).money ∧
    (updateTroops dt s).lives = s.lives ∧
    (updateTroops dt s).gameState = s.gameState := by
  unfold updateTroops
  have h := foldl_troopPass_inv dt s.troops
    ({ s with activeTargetLines := [] }, [])
  exact ⟨h.1, h.2.1, h.2.2⟩

/-- C3 (amended): a tick of the devvit orchestrator keeps `money ≥ 0`
(money never decreases during a tick: placement happens outside the tick
and kills only add non-negative rewards), and whenever `lives` is negative
after the tick, the transition to `ended` has already fired — the first
decrement that reaches 0 triggers `endGame(false)` before any further
decrement.  `lives ≥ 0` itself, however, is NOT an invariant of the tick:
see the counterexample theorem. -/
theorem tick_money_nonneg_and_ended_before_negative (frac : FracFun)
    (fid : String) (dt : ℚ) (s : DevSt) (hm : 0 ≤ s.money)
    (hl : s.lives < 0 → s.gameState = .ended) :
    0 ≤ (update frac fid dt s).money ∧
    ((update frac fid dt s).lives < 0 →
      (update frac fid dt s).gameState = .ended) := by
  unfold update updateEnemies
  set s1 := spawnPass fid dt s with hs1
  have hsp := spawnPass_fields fid dt s
  have hl1 : s1.lives < 0 → s1.gameState = .ended := by
    rw [hsp.2.1, hsp.2.2]
    exact hl
  set s2 := s1.ec.enemies.reverse.foldl
    (fun acc e => enemyPass frac dt e acc) s1 with hs2
  have hfold := foldl_enemyPass_inv frac dt s1.ec.enemies.reverse s1 hl1
  set s3 := waveCompletePass s2 with hs3
  have hwc := waveCompletePass_inv s2 hfold.2
  have hut := updateTroops_inv dt s3
  constructor
  · calc (0 : ℚ) ≤ s.money := hm
      _ = s1.money := hsp.1.symm
      _ = s2.money := hfold.1.symm
      _ = s3.money := hwc.1.symm
      _ ≤ (updateTroops dt s3).money := hut.1
  · intro hneg
    rw [hut.2.1] at hneg
    rw [hut.2.2]
    exact hwc.2.2 hneg

/-- A minimal playing state: no enemies, no troops, no active wave. -/
def devIdleSt : DevSt :=
  { gameState := .playing, money := 100, lives := 20, currentWave := 1,
    troops := [], gameEnemies := [], ec := ⟨[], [], []⟩,
    paths := [groundPath, airPath], waveInProgress := false, waveTimer := 0,
    currentWaveConfig := none, troopAttackTimers := [],
    activeTargetLines := [], pendingNextWave := false }

theorem tick_money_nonneg_and_ended_before_negative_witness :
    0 ≤ (update frac0 "w1" 16 devIdleSt).money ∧
    ((update frac0 "w1" 16 devIdleSt).lives < 0 →
      (update frac0 "w1" 16 devIdleSt).gameState = .ended) :=
  tick_money_nonneg_and_ended_before_negative frac0 "w1" 16 devIdleSt
    (by norm_num [devIdleSt]) (by norm_num [devIdleSt])

/-- First of two enemies standing on the last waypoint of the main path. -/
def endEnemy1 : Enemy :=
  { id := "ge1", type := "goblin", health := 5, speed := 2,
    position := ⟨9, 3⟩, pathIndex := 9 }

/-- Second of two enemies standing on the last waypoint of the main path. -/
def endEnemy2 : Enemy :=
  { id := "ge2", type := "goblin", health := 5, speed := 2,
    position := ⟨9, 3⟩, pathIndex := 9 }

/-- A playing state with one life left and two enemies that both reached
the end of the path (reachable when one tick's `deltaTime` is large enough
for both to snap onto the final waypoint in the preceding tick). -/
def c3St : DevSt :=
  { gameState := .playing, money := 0, lives := 1, currentWave := 1,
    troops := [], gameEnemies := [],
    ec := ⟨[endEnemy1, endEnemy2], ["ge1", "ge2"], ["ge1", "ge2"]⟩,
    paths := [groundPath, airPath], waveInProgress := false, waveTimer := 0,
    currentWaveConfig := none, troopAttackTimers := [],
    activeTargetLines := [], pendingNextWave := false }

theorem findPath_main :
    findPath [groundPath, airPath] none = some groundPath := by
  simp [findPath, resolvePathId, groundPath, airPath, List.find?]

theorem groundPath_waypoints :
    groundPath.waypoints =
      [⟨0, 3⟩, ⟨1, 3⟩, ⟨2, 3⟩, ⟨3, 3⟩, ⟨4, 3⟩,
       ⟨5, 3⟩, ⟨6, 3⟩, ⟨7, 3⟩, ⟨8, 3⟩, ⟨9, 3⟩] := by
  decide

/-- State of `c3St` after the per-enemy loop has processed `endEnemy2`. -/
def c3Stb : DevSt :=
  { c3St with
    lives := 0,
    gameState := .ended,
    ec := ⟨[endEnemy1], ["ge1"], ["ge1"]⟩ }

/-- State of `c3St` after the per-enemy loop has processed both enemies. -/
def c3Stc : DevSt :=
  { c3St with
    lives := -1,
    gameState := .ended,
    ec := ⟨[], [], []⟩ }

theorem removeEnemy_c3_e2 :
    EnemyController.removeEnemy
      (⟨[endEnemy1, endEnemy2], ["ge1", "ge2"], ["ge1", "ge2"]⟩ : ECState)
      "ge2" = ⟨[endEnemy1], ["ge1"], ["ge1"]⟩ := by
  decide

theorem removeEnemy_c3_e1 :
    EnemyController.removeEnemy
      (⟨[endEnemy1], ["ge1"], ["ge1"]⟩ : ECState) "ge1" = ⟨[], [], []⟩ := by
  decide

theorem enemyPass_e2 : enemyPass frac0 16 endEnemy2 c3St = c3Stb := by
  have hid : endEnemy2.id = "ge2" := rfl
  have hpi : endEnemy2.pathIndex = 9 := rfl
  have hgs : ¬ (GState.playing = GState.ended) := by decide
  unfold enemyPass
  rw [show c3St.paths = [groundPath, airPath] from rfl, findPath_main]
  norm_num [groundPath_waypoints, hid, hpi, hgs, c3St, c3Stb,
    removeEnemy_c3_e2, endGame]

theorem enemyPass_e1 : enemyPass frac0 16 endEnemy1 c3Stb = c3Stc := by
  have hid : endEnemy1.id = "ge1" := rfl
  have hpi : endEnemy1.pathIndex = 9 := rfl
  unfold enemyPass
  rw [show c3Stb.paths = [groundPath, airPath] from rfl, findPath_main]
  norm_num [groundPath_waypoints, hid, hpi, c3St, c3Stb, c3Stc,
    removeEnemy_c3_e1, endGame]

theorem updateEnemies_c3 : updateEnemies frac0 "cx" 16 c3St = c3Stc := by
  unfold updateEnemies
  have hspawn : spawnPass "cx" 16 c3St = c3St := by
    unfold spawnPass
    rw [if_neg (by rw [show c3St.waveInProgress = false from rfl]; simp)]
  rw [hspawn]
  simp only []
  rw [show c3St.ec.enemies = [endEnemy1, endEnemy2] from rfl]
  simp only [List.reverse_cons, List.reverse_nil, List.nil_append,
    List.cons_append, List.foldl_cons, List.foldl_nil]
  rw [enemyPass_e2, enemyPass_e1]
  unfold waveCompletePass
  rw [if_neg (by rw [show c3Stc.waveInProgress = false from rfl]; simp)]

/-- C3 counterexample: in the playing state `c3St` with `lives = 1` and two
enemies at the end of the path, a single tick decrements lives twice —
the per-enemy loop keeps running after `endGame` fires — so lives is `-1`
(negative) when the tick completes, refuting `lives ≥ 0` as a post-tick
invariant; the `ended` transition did fire during that tick. -/
theorem tick_lives_can_go_negative :
    c3St.lives = 1 ∧ c3St.gameState = .playing ∧
    (update frac0 "cx" 16 c3St).lives = -1 ∧
    ¬ (0 ≤ (update frac0 "cx" 16 c3St).lives) ∧
    (update frac0 "cx" 16 c3St).gameState = .ended := by
  have h3 : (update frac0 "cx" 16 c3St).lives = -1 := by
    show (updateTroops 16 (updateEnemies frac0 "cx" 16 c3St)).lives = -1
    rw [(updateTroops_inv 16 _).2.1, updateEnemies_c3]
    rfl
  refine ⟨rfl, rfl, h3, ?_, ?_⟩
  · rw [h3]
    norm_num
  · show (updateTroops 16 (updateEnemies frac0 "cx" 16 c3St)).gameState
      = .ended
    rw [(updateTroops_inv 16 _).2.2, updateEnemies_c3]
    rfl

/-- C2 (amended): for a troop with no live enemy inside its range, target
resolution (`TroopController.attack`) returns `none`, so the troop deals
no damage, earns no money and changes no enemy state — but the troop's
attack-cooldown timer is NOT left untouched: the loop body decrements it
by `deltaTime` and writes it back before any target check, so the cooldown
drains even while the unit is idle (and is only ever reset after a
successful attack). -/
theorem idle_troop_cooldown_drains (dt : ℚ) (a : DevSt × List Troop)
    (t : Troop)
    (hnone : ∀ e ∈ a.1.gameEnemies, ¬ TroopController.inRange t e) :
    (TroopController.attack t a.1.gameEnemies).1 = none ∧
    mapGet (troopPass dt a t).1.troopAttackTimers t.id =
      some ((mapGet a.1.troopAttackTimers t.id).getD 0 - dt) ∧
    (troopPass dt a t).1.money = a.1.money ∧
    (troopPass dt a t).1.gameEnemies = a.1.gameEnemies ∧
    (troopPass dt a t).1.ec = a.1.ec := by
  have hnone2 : TroopController.attackAux t a.1.gameEnemies none = none :=
    (TroopController.attackAux_none_iff t a.1.gameEnemies none).mpr ⟨rfl, hnone⟩
  have hatt : (TroopController.attack t a.1.gameEnemies).1 = none := by
    show (TroopController.attackAux t a.1.gameEnemies none).map Prod.fst
      = none
    rw [hnone2]
    rfl
  refine ⟨hatt, ?_⟩
  unfold troopPass
  simp only []
  by_cases hc : 0 < (mapGet a.1.troopAttackTimers t.id).getD 0 - dt
  · rw [if_pos hc]
    exact ⟨mapGet_mapSet_self _ _ _, rfl, rfl, rfl⟩
  · rw [if_neg hc]
    have hattPair : TroopController.attack t a.1.gameEnemies =
        (none, (TroopController.attack t a.1.gameEnemies).2) := by
      rw [← hatt]
    rw [hattPair]
    exact ⟨mapGet_mapSet_self _ _ _, rfl, rfl, rfl⟩

theorem idle_troop_cooldown_drains_witness :
    (TroopController.attack TroopController.trBase
      devIdleSt.gameEnemies).1 = none ∧
    mapGet (troopPass 100 (devIdleSt, [])
      TroopController.trBase).1.troopAttackTimers "tr1" = some (0 - 100) := by
  have h := idle_troop_cooldown_drains 100 (devIdleSt, [])
    TroopController.trBase
    (by
      intro e he
      rw [show devIdleSt.gameEnemies = [] from rfl] at he
      simp at he)
  exact ⟨h.1, h.2.1⟩

/-- The troop of the C2 counterexample. -/
def c2Troop : Troop :=
  { id := "ct1", type := .infantry, position := ⟨0, 0⟩, level := 1,
    range := 2, damage := 1, fireRate := 1, cost := 10 }

/-- A playing state with one troop whose cooldown stands at 500 ms and no
enemy anywhere. -/
def c2St : DevSt :=
  { devIdleSt with
    troops := [c2Troop],
    troopAttackTimers := [("ct1", 500)] }

/-- C2 counterexample: with no live enemy at all (hence none within range)
and the troop's cooldown at 500 ms, one `updateTroops` tick with
`deltaTime = 100` leaves the stored cooldown at 400 ms, not at the
untouched 500 ms: the cooldown drains while the unit is idle. -/
theorem idle_cooldown_not_untouched :
    c2St.gameEnemies = [] ∧
    mapGet c2St.troopAttackTimers "ct1" = some 500 ∧
    mapGet (updateTroops 100 c2St).troopAttackTimers "ct1" = some 400 ∧
    ¬ (mapGet (updateTroops 100 c2St).troopAttackTimers "ct1"
        = some 500) := by
  have h4 : mapGet (updateTroops 100 c2St).troopAttackTimers "ct1"
      = some 400 := by
    unfold updateTroops
    rw [show c2St.troops = [c2Troop] from rfl]
    simp only [List.foldl_cons, List.foldl_nil]
    unfold troopPass
    norm_num [c2St, devIdleSt, c2Troop, mapGet, mapSet, List.find?]
  refine ⟨rfl, rfl, h4, ?_⟩
  rw [h4]
  norm_num

end Devvit

/-! ## The `game.ts` orchestrator variant -/

namespace GameTs

/-- The mutable state of the `game.ts` variant `Game` touched by its
`updateEnemies`: one flat enemy list, a single waypoint path
(`mapGrid.path`), the mesh registry and scene, and the wave bookkeeping
(whose groups have no pathId; the shared `WaveGroup` record's `pathId`
stays `none`). -/
structure GSt where
  gameState : GState
  money : ℚ
  lives : ℚ
  currentWave : ℚ
  enemies : List Enemy
  enemyMeshes : List String
  scene : List String
  path : List Pos
  waveInProgress : Bool
  waveTimer : ℚ
  currentWaveConfig : Option (List WaveGroup)
deriving DecidableEq, Repr

/-- Game.endGame of `game.ts` (same early-return shape as the devvit
variant). -/
def endGame (s : GSt) : GSt :=
  if s.gameState = .ended then s else { s with gameState := .ended }

/-- Game.removeEnemy of `game.ts` (lines 952-955): the body is ONLY the
placeholder log
`"Logic for removing enemy data and mesh will be added here step-by-step"`
— it mutates nothing, although both call sites comment
`// Expect removeEnemy to exist`. -/
def removeEnemy (s : GSt) (enemyId : String) (i : ℤ) : GSt := s

/-- Game.spawnEnemy of `game.ts`: rejects when the path is empty, else
appends the new enemy at the path's first waypoint and registers its
mesh.  The random id is supplied as `fid`; `ENEMY_CONFIG[type]` is total
in the typed embedding. -/
def spawnEnemy (ty : EnemyType) (fid : String) (s : GSt) : GSt :=
  if s.path.length = 0 then s
  else
    match s.path.head? with
    | none => s
    | some startTile =>
      let e : Enemy :=
        { id := fid, type := ty.str, health := (ENEMY_CONFIG ty).health,
          speed := (ENEMY_CONFIG ty).speed, position := startTile,
          pathIndex := 0 }
      { s with
        enemies := s.enemies ++ [e],
        scene := s.scene ++ [fid],
        enemyMeshes := EnemyController.meshSet s.enemyMeshes fid }

/-- The wave-spawn block at the top of `game.ts` `updateEnemies` (same
logic as the devvit variant, minus path ids). -/
def spawnPass (fid : String) (dt : ℚ) (s : GSt) : GSt :=
  if s.waveInProgress then
    match s.currentWaveConfig with
    | none => s
    | some cfg =>
      let timer := s.waveTimer - dt
      if timer ≤ 0 then
        match splitFirstPending cfg with
        | none => { s with waveTimer := timer }
        | some (pre, g, post) =>
          { spawnEnemy g.type fid s with
            currentWaveConfig :=
              some (pre ++ { g with spawned := g.spawned + 1 } :: post),
            waveTimer := 1000 }
      else { s with waveTimer := timer }
  else s

/-- The body of the per-enemy loop of `game.ts` `updateEnemies`
(lines 817-853), indexing `this.enemies[i]` directly: an enemy at or past
the last waypoint of `mapGrid.path` costs a life and is handed to the
placeholder `removeEnemy`; otherwise it advances (same desugared snap test
as the devvit variant). -/
def enemyPass (frac : FracFun) (dt : ℚ) (s : GSt) (i : ℕ) : GSt :=
  match listGetI s.enemies (i : ℤ) with
  | none => s
  | some e =>
    if (s.path.length : ℤ) - 1 ≤ e.pathIndex then
      let lives2 := s.lives - 1
      let s2 := removeEnemy { s with lives := lives2 } e.id (i : ℤ)
      if lives2 ≤ 0 then endGame s2 else s2
    else
      match listGetI s.path (e.pathIndex + 1) with
      | none => s
      | some wp =>
        let moveSpeed := e.speed * tileSize * dt / 1000
        let e2 :=
          if 0 < moveSpeed ∧ moveDistSq e wp < moveSpeed * moveSpeed then
            { e with position := wp, pathIndex := e.pathIndex + 1 }
          else { e with position := frac e wp dt }
        { s with enemies := listModify s.enemies i fun _ => e2 }

/-- The wave-complete check at the bottom of `game.ts` `updateEnemies`
(the scheduled `startNextWave` runs outside the tick and `game.ts` keeps
no flag for it, so only `waveInProgress` and the win transition are
state). -/
def waveCompletePass (s : GSt) : GSt :=
  if s.waveInProgress then
    match s.currentWaveConfig with
    | none => s
    | some cfg =>
      if s.enemies.length = 0 then
        if cfg.all fun g => g.count ≤ g.spawned then
          let s2 := { s with waveInProgress := false }
          if s2.currentWave < 10 then s2 else endGame s2
        else s
      else s
  else s

/-- Game.updateEnemies of `game.ts`: spawn block, then the loop
`for (let i = enemies.length - 1; i >= 0; i--)` over the live array (the
array length never changes during the loop because `removeEnemy` is a
no-op), then the wave-complete check. -/
def updateEnemies (frac : FracFun) (fid : String) (dt : ℚ) (s : GSt) :
    GSt :=
  let s1 := spawnPass fid dt s
  let s2 := (List.range s1.enemies.length).reverse.foldl
    (enemyPass frac dt) s1
  waveCompletePass s2

/-- The waypoint path of `game.ts` `prepare`: `(i, floor(6/2))` for
`i = 0, …, 9`. -/
def gamePath : List Pos := (List.range 10).map fun i => ⟨(i : ℚ), 3⟩

theorem gamePath_eval :
    gamePath =
      [⟨0, 3⟩, ⟨1, 3⟩, ⟨2, 3⟩, ⟨3, 3⟩, ⟨4, 3⟩,
       ⟨5, 3⟩, ⟨6, 3⟩, ⟨7, 3⟩, ⟨8, 3⟩, ⟨9, 3⟩] := by
  decide

/-- A goblin standing on the last waypoint (`pathIndex = 9`) with full
health. -/
def gob9 : Enemy :=
  { id := "g1", type := "goblin", health := 5, speed := 2,
    position := ⟨9, 3⟩, pathIndex := 9 }

/-- A `game.ts` playing state with `lives = L` and `gob9` as the only live
enemy, outside any wave. -/
def gBase (L : ℚ) : GSt :=
  { gameState := .playing, money := 100, lives := L, currentWave := 1,
    enemies := [gob9], enemyMeshes := ["g1"], scene := ["g1"],
    path := gamePath, waveInProgress := false, waveTimer := 0,
    currentWaveConfig := none }

theorem enemyPass_gBase (L : ℚ) (hL : ¬ (L - 1 ≤ 0)) (dt : ℚ) :
    enemyPass frac0 dt (gBase L) 0 = gBase (L - 1) := by
  have hget : listGetI (gBase L).enemies ((0 : ℕ) : ℤ) = some gob9 := rfl
  have hlen : (gBase L).path.length = 10 := by
    rw [show (gBase L).path = gamePath from rfl, gamePath_eval]
    rfl
  have hcond : ((gBase L).path.length : ℤ) - 1 ≤ gob9.pathIndex := by
    rw [hlen, show gob9.pathIndex = 9 from rfl]
    norm_num
  unfold enemyPass
  rw [hget]
  simp only []
  rw [if_pos hcond]
  rw [if_neg (show ¬ ((gBase L).lives - 1 ≤ 0) from hL)]
  rfl

theorem updateEnemies_gBase (L : ℚ) (hL : ¬ (L - 1 ≤ 0)) (fid : String) :
    updateEnemies frac0 fid 16 (gBase L) = gBase (L - 1) := by
  unfold updateEnemies
  have hspawn : spawnPass fid 16 (gBase L) = gBase L := by
    unfold spawnPass
    rw [if_neg (by rw [show (gBase L).waveInProgress = false from rfl]; simp)]
  rw [hspawn]
  simp only []
  rw [show (List.range (gBase L).enemies.length).reverse = [0] from by rfl]
  simp only [List.foldl_cons, List.foldl_nil]
  rw [enemyPass_gBase L hL 16]
  unfold waveCompletePass
  rw [if_neg (by
    rw [show (gBase (L - 1)).waveInProgress = false from rfl]
    simp)]

/-- C1 (code bug evaluation): in the `game.ts` variant, a tick in which
`gob9` sits on the last waypoint decrements lives — but `removeEnemy` is
an unimplemented placeholder, so the enemy is NOT removed from the live
collection and the next tick decrements lives AGAIN for the same enemy:
from `lives = 20`, one tick yields 19 with `gob9` still live, a second
tick yields 18, refuting removal and the exactly-once life loss. -/
theorem reached_end_not_removed_lives_decrement_twice :
    (gBase 20).lives = 20 ∧
    (updateEnemies frac0 "f1" 16 (gBase 20)).lives = 19 ∧
    (updateEnemies frac0 "f1" 16 (gBase 20)).enemies = [gob9] ∧
    (updateEnemies frac0 "f2" 16
      (updateEnemies frac0 "f1" 16 (gBase 20))).lives = 18 := by
  have h1 : updateEnemies frac0 "f1" 16 (gBase 20) = gBase (20 - 1) :=
    updateEnemies_gBase 20 (by norm_num) "f1"
  have h19 : (20 : ℚ) - 1 = 19 := by norm_num
  have h18 : (19 : ℚ) - 1 = 18 := by norm_num
  have h2 : updateEnemies frac0 "f2" 16 (gBase 19) = gBase (19 - 1) :=
    updateEnemies_gBase 19 (by norm_num) "f2"
  refine ⟨rfl, ?_, ?_, ?_⟩
  · rw [h1, h19]
    rfl
  · rw [h1]
    rfl
  · rw [h1, h19, h2, h18]
    rfl

end GameTs

end TD
